import Mathlib

/-!
# Verification of the ghpx dispatcher (bin/ghpx.js, v1.0.2)

A shallow embedding of the ghpx command-line dispatcher. Strings are
modelled as `List Char` (`Str`), filesystem paths as lists of path
segments (`FsPath`), and the process's observable behaviour as a trace of
effects (`Eff`). Every definition is translated from the JavaScript
source; the ambient filesystem, platform and child-process outcomes are
supplied through an explicit environment (`Env`).
-/

/-- A JavaScript string, modelled as its character list. -/
abbrev Str := List Char

/-- A filesystem path, modelled as its list of path segments. -/
abbrev FsPath := List Str

/-! ## FsPath arithmetic (Node `path.join` / `path.normalize`, POSIX) -/

/-- Split a string on the `/` separator (as `path` does segment-wise). -/
def splitSegs : Str → List Str
  | [] => [[]]
  | c :: rest =>
    let r := splitSegs rest
    if c = '/' then [] :: r
    else
      match r with
      | [] => [[c]]
      | h :: t => (c :: h) :: t

/-- One step of POSIX path normalization over an absolute path:
empty segments and `.` are dropped, `..` pops the previous segment. -/
def normStep (acc : List Str) (seg : Str) : List Str :=
  if seg = [] ∨ seg = ['.'] then acc
  else if seg = ['.', '.'] then acc.dropLast
  else acc ++ [seg]

/-- POSIX normalization of an absolute path given as segments
(the behaviour `path.join` applies to its concatenated arguments). -/
def normSegs (segs : List Str) : List Str := segs.foldl normStep []

/-- `path.join(dir, s)` for a directory already in segment form. -/
def pathJoin (dir : FsPath) (s : Str) : FsPath := normSegs (dir ++ splitSegs s)

/-! ## String constants from the source -/

def verFlag : Str := "--ghpx-version".toList
def clearFlag : Str := "--ghpx-clear-cache".toList
def versionLine : Str := "ghpx v1.0.2".toList
def ghpxCacheSeg : Str := ".ghpx-cache".toList
def nmSeg : Str := "node_modules".toList
def dotBinSeg : Str := ".bin".toList
def pkgJsonSeg : Str := "package.json".toList
def cmdExt : Str := ".cmd".toList
def latestStr : Str := "@latest".toList
def loglevelEqStr : Str := "--loglevel=".toList
def loglevelStr : Str := "--loglevel".toList

/-- Flags of npx that consume the following token as a value
(`flagsWithValues` in `extractNpmFlags`). -/
def flagsWithValues : List Str :=
  ["-p", "--package", "-c", "--call", "--npm", "--node-arg", "-w",
   "--workspace", "--loglevel"].map String.toList

/-- Standalone npx flags (`standaloneFlags` in `extractNpmFlags`). -/
def standaloneFlags : List Str :=
  ["-y", "--yes", "-n", "--no", "--no-install", "--ignore-existing",
   "-q", "--quiet", "--silent", "-d", "-dd", "-ddd", "--verbose",
   "--workspaces", "--include-workspace-root"].map String.toList

/-! ## ArgumentClassifier (`extractNpmFlags`) -/

/-- `extractNpmFlags(args)`: split the raw arguments into
`(npmFlags, remainingArgs)`. A flag taking a value consumes the next
token when one exists; standalone flags and `--loglevel=...` go to
`npmFlags` alone; everything else goes to `remainingArgs`. -/
def extractNpmFlags : List Str → List Str × List Str
  | [] => ([], [])
  | a :: rest =>
    if a ∈ flagsWithValues then
      match rest with
      | [] => ([a], [])
      | v :: rest2 =>
        let p := extractNpmFlags rest2
        (a :: v :: p.1, p.2)
    else if a ∈ standaloneFlags ∨ loglevelEqStr.isPrefixOf a then
      let p := extractNpmFlags rest
      (a :: p.1, p.2)
    else
      let p := extractNpmFlags rest
      (p.1, a :: p.2)

/-! ## Candidate-specifier selection (`findPackageArg`) -/

/-- `findPackageArg(args)`: the first token not starting with `-`,
together with its index, or `none`. -/
def findPackageArg : List Str → Option (Nat × Str)
  | [] => none
  | a :: rest =>
    if a.head? = some '-' then
      (findPackageArg rest).map (fun iv => (iv.1 + 1, iv.2))
    else
      some (0, a)

/-! ## SpecifierParser (`parsePackage`) -/

/-- A character matched by an unflagged JavaScript regex dot
(anything but a line terminator). -/
def isDotChar (c : Char) : Bool :=
  c ≠ '\n' && c ≠ '\r' && c ≠ Char.ofNat 0x2028 && c ≠ Char.ofNat 0x2029

/-- The regex `^@([^/]+)\/([^@]+)(@.+)?$` of `parsePackage`:
returns the three capture groups on a match. -/
def matchScoped (s : Str) : Option (Str × Str × Option Str) :=
  match s with
  | [] => none
  | c0 :: rest =>
    if c0 ≠ '@' then none
    else
      let g1 := rest.takeWhile (· ≠ '/')
      match rest.dropWhile (· ≠ '/') with
      | [] => none
      | c1 :: tail =>
        if c1 ≠ '/' ∨ g1 = [] then none
        else
          let g2 := tail.takeWhile (· ≠ '@')
          if g2 = [] then none
          else
            match tail.dropWhile (· ≠ '@') with
            | [] => some (g1, g2, none)
            | c2 :: v =>
              if c2 = '@' ∧ v ≠ [] ∧ v.all isDotChar then
                some (g1, g2, some (c2 :: v))
              else none

/-- The record returned by `parsePackage`. -/
structure Parsed where
  scope : Str
  pkgNameWithVersion : Str
  binName : Str
  fullPackage : Str
  deriving DecidableEq, Repr

/-- `parsePackage(packageArg)`: match the scoped-specifier regex and
build the parsed record, or return `none`. -/
def parsePackage (packageArg : Str) : Option Parsed :=
  match matchScoped packageArg with
  | none => none
  | some (g1, g2, g3) =>
    some { scope := g1
           pkgNameWithVersion := g2 ++ g3.getD []
           binName := g2
           fullPackage := packageArg }

/-! ## CacheLocator (`getCacheDir`, `getInstallDir`) -/

/-- `pkgName.replace(/@.*$/, '')`: drop everything from the first `@`
whose suffix the regex dot can cover (leftmost-match semantics). -/
def stripVersion : Str → Str
  | [] => []
  | c :: rest =>
    if c = '@' ∧ rest.all isDotChar then []
    else c :: stripVersion rest

/-- `getCacheDir()`: `path.join(os.homedir(), '.ghpx-cache')`. -/
def getCacheDir (home : FsPath) : FsPath := normSegs (home ++ [ghpxCacheSeg])

/-- `getInstallDir(scope, pkgName)`:
`path.join(getCacheDir(), scope, basePkgName)` with the version
qualifier stripped from `pkgName` first. -/
def getInstallDir (home : FsPath) (scope pkgName : Str) : FsPath :=
  let basePkgName := stripVersion pkgName
  normSegs (getCacheDir home ++ splitSegs scope ++ splitSegs basePkgName)

/-- JavaScript `hay.includes(needle)`: contiguous-substring search. -/
def hasSub : Str → Str → Bool
  | hay, needle =>
    needle.isPrefixOf hay ||
      match hay with
      | [] => false
      | _ :: t => hasSub t needle

/-! ## FreshnessPolicy (`needsInstall`) -/

/-- `needsInstall(installDir, packageArg)` against a filesystem oracle
`ex`: true when `installDir/node_modules` is absent, else true when the
specifier token contains the substring `@latest`, else false. -/
def needsInstall (ex : FsPath → Bool) (installDir : FsPath) (packageArg : Str) : Bool :=
  let nodeModulesPath := installDir ++ [nmSeg]
  if !(ex nodeModulesPath) then true
  else if hasSub packageArg latestStr then true
  else false

/-! ## Effects and environment -/

/-- One observable effect of a ghpx run. -/
inductive Eff where
  | stdoutE (msg : Str)
  | stderrE (msg : Str)
  | checkExists (p : FsPath)
  | rmTree (p : FsPath)
  | mkdirp (p : FsPath)
  | writeFile (p : FsPath)
  | execInstall (pkg : Str) (flags : List Str) (cwd : FsPath)
  | spawnNpx (args : List Str)
  | spawnBin (binPath : FsPath) (args : List Str)
  | exitCode (code : Nat)
  deriving DecidableEq, Repr

/-- Whether an effect reads or writes the on-disk cache. -/
def Eff.isCacheOp : Eff → Bool
  | .checkExists _ => true
  | .rmTree _ => true
  | .mkdirp _ => true
  | .writeFile _ => true
  | .execInstall _ _ _ => true
  | _ => false

/-- Outcome of spawning a child process: a `close` event carrying an
optional exit code, or an `error` event carrying a message. -/
inductive SpawnResult where
  | closed (code : Option Nat)
  | errored (msg : Str)
  deriving DecidableEq, Repr

/-- The ambient world of one invocation: home directory, filesystem
oracles (before and after a possible install), platform, and the
outcomes of the external processes. -/
structure Env where
  home : FsPath
  fsExists : FsPath → Bool
  binExists : FsPath → Bool
  isWin32 : Bool
  installOk : Bool
  npxResult : SpawnResult
  binResult : SpawnResult

/-! ## Installer (`installPackage`) -/

/-- The filter the installer applies to the collected npm flags before
appending them to the `npm install` command line. -/
def installFlagPred (f : Str) : Bool :=
  f = "--verbose".toList || f = "-d".toList || f = "-dd".toList ||
  f = "-ddd".toList || f = "-q".toList || f = "--quiet".toList ||
  f = "--silent".toList || loglevelStr.isPrefixOf f

def installingMsg (pkg : Str) : Str :=
  "Installing ".toList ++ pkg ++ "...".toList

/-- `installPackage(installDir, packageArg, npmFlags)`: create the
directory, write the throwaway manifest, run `npm install` with the
filtered flags in that directory; on a non-zero installer exit the
catch block terminates the process with status 1. -/
def installPackageModel (ok : Bool) (installDir : FsPath) (packageArg : Str)
    (npmFlags : List Str) : List Eff :=
  [.mkdirp installDir, .writeFile (installDir ++ [pkgJsonSeg]),
   .execInstall packageArg (npmFlags.filter installFlagPred) installDir] ++
  (if ok then [] else [.exitCode 1])

/-! ## BinaryLocator (`findBinary`) -/

/-- `findBinary(installDir, binName)`: probe
`installDir/node_modules/.bin` for `binName.cmd` (win32 only) and then
`binName`; returns the existence checks performed and the found path. -/
def findBinaryModel (ex : FsPath → Bool) (win : Bool) (installDir : FsPath)
    (binName : Str) : List Eff × Option FsPath :=
  let binDir := installDir ++ [nmSeg, dotBinSeg]
  if win then
    let cmdPath := pathJoin binDir (binName ++ cmdExt)
    if ex cmdPath then ([.checkExists cmdPath], some cmdPath)
    else
      let bp := pathJoin binDir binName
      if ex bp then ([.checkExists cmdPath, .checkExists bp], some bp)
      else ([.checkExists cmdPath, .checkExists bp], none)
  else
    let bp := pathJoin binDir binName
    if ex bp then ([.checkExists bp], some bp)
    else ([.checkExists bp], none)

/-! ## Process spawning (`runBinary`, `passToNpx`) -/

def binSpawnErrHead : Str := "Error executing binary: ".toList
def npxSpawnErrHead : Str := "Error executing npx: ".toList

/-- The shared `close`/`error` handler body: exit with the child's code
(`code || 0`), or report the spawn error and exit 1. -/
def closeOrError (errHead : Str) (res : SpawnResult) : List Eff :=
  match res with
  | .closed code => [.exitCode (code.getD 0)]
  | .errored m => [.stderrE (errHead ++ m), .exitCode 1]

/-- `runBinary(binPath, args)`: spawn the resolved binary and propagate
its exit. -/
def runBinaryModel (binPath : FsPath) (args : List Str) (res : SpawnResult) : List Eff :=
  .spawnBin binPath args :: closeOrError binSpawnErrHead res

/-- `passToNpx(args)`: spawn npx on the given arguments and propagate
its exit. -/
def passToNpxModel (args : List Str) (res : SpawnResult) : List Eff :=
  .spawnNpx args :: closeOrError npxSpawnErrHead res

/-! ## Self-flags (`clearCache`) and the dispatcher (`main`) -/

def renderPath (p : FsPath) : Str := (p.intersperse ['/']).flatten

def clearedMsg (p : FsPath) : Str := "Cache cleared: ".toList ++ renderPath p
def noCacheMsg (p : FsPath) : Str :=
  "Cache directory does not exist: ".toList ++ renderPath p

/-- `clearCache()`: remove the cache root when present, reporting
either way. -/
def clearCacheModel (env : Env) : List Eff :=
  let cd := getCacheDir env.home
  if env.fsExists cd then
    [.checkExists cd, .rmTree cd, .stdoutE (clearedMsg cd)]
  else
    [.checkExists cd, .stdoutE (noCacheMsg cd)]

def binMissingMsg (binName : Str) : Str :=
  "Error: Binary ".toList ++ binName ++ " not found".toList
def lookedInMsg (p : FsPath) : Str := "Looked in: ".toList ++ renderPath p

/-- `main()`: the dispatcher, as the trace of effects it performs under
environment `env` on raw arguments `args`. -/
def mainModel (env : Env) (args : List Str) : List Eff :=
  if args = [] then passToNpxModel args env.npxResult
  else if args.head? = some verFlag then [.stdoutE versionLine, .exitCode 0]
  else if args.head? = some clearFlag then clearCacheModel env ++ [.exitCode 0]
  else
    let cls := extractNpmFlags args
    match findPackageArg cls.2 with
    | none => passToNpxModel args env.npxResult
    | some iv =>
      match parsePackage iv.2 with
      | none => passToNpxModel args env.npxResult
      | some p =>
        let installDir := getInstallDir env.home p.scope p.pkgNameWithVersion
        let nmPath := installDir ++ [nmSeg]
        let need := needsInstall env.fsExists installDir p.fullPackage
        let installPart : List Eff :=
          if need then
            .stderrE (installingMsg p.fullPackage) ::
              installPackageModel env.installOk installDir p.fullPackage cls.1
          else []
        if need && !env.installOk then
          .checkExists nmPath :: installPart
        else
          let fb := findBinaryModel env.binExists env.isWin32 installDir p.binName
          match fb.2 with
          | none =>
            .checkExists nmPath :: installPart ++ fb.1 ++
              [.stderrE (binMissingMsg p.binName),
               .stderrE (lookedInMsg (installDir ++ [nmSeg, dotBinSeg])),
               .exitCode 1]
          | some bp =>
            .checkExists nmPath :: installPart ++ fb.1 ++
              runBinaryModel bp (cls.2.drop (iv.1 + 1)) env.binResult

/-! ## Concrete environments and inputs used by witnesses -/

def huHome : FsPath := ["h".toList, "u".toList]

/-- A world with an empty cache, a succeeding installer, every binary
present after install, POSIX platform, and children that exit cleanly. -/
def envA : Env :=
  { home := huHome
    fsExists := fun _ => false
    binExists := fun _ => true
    isWin32 := false
    installOk := true
    npxResult := .closed (some 0)
    binResult := .closed none }

/-- Like `envA` but with the cache root (and every probed path) present. -/
def envB : Env := { envA with fsExists := fun _ => true }

/-- Like `envA` but with a failing external installer. -/
def envC : Env := { envA with binExists := fun _ => false, installOk := false }

def acmeTok : Str := "@acme/tool".toList

def acmeDir : FsPath := getInstallDir huHome "acme".toList "tool".toList

/-- The candidate specifier of an invocation: the first non-flag token
of `remainingArgs`, parsed; `none` when there is no candidate or it
does not match the scoped grammar. -/
def candidateSpec (args : List Str) : Option Parsed :=
  match findPackageArg (extractNpmFlags args).2 with
  | none => none
  | some iv => parsePackage iv.2

/-- A path segment that plays no special role in normalization
(not empty, not `.`, not `..`). -/
def cleanSegB (s : Str) : Bool := s ≠ [] && s ≠ ['.'] && s ≠ ['.', '.']

/-- The parse of the versioned token `@acme/tool@1.2.3`. -/
def acmeParsed : Parsed :=
  { scope := "acme".toList
    pkgNameWithVersion := "tool@1.2.3".toList
    binName := "tool".toList
    fullPackage := "@acme/tool@1.2.3".toList }

/-- The parse of the unversioned token `@acme/tool`. -/
def acmeToolParsed : Parsed :=
  { scope := "acme".toList
    pkgNameWithVersion := "tool".toList
    binName := "tool".toList
    fullPackage := acmeTok }

/-! ## Claim C2: FreshnessPolicy -/

/-- Claim C2: `needsInstall` returns true if and only if the cache
entry's `node_modules` directory does not exist or the specifier token
contains the substring `@latest` (plain substring match); in every
other case it returns false, the directory check coming first. -/
theorem c2_needsInstall_iff (ex : FsPath → Bool) (d : FsPath) (pkg : Str) :
    needsInstall ex d pkg = (!(ex (d ++ [nmSeg])) || hasSub pkg latestStr) ∧
    (needsInstall ex d pkg = true ↔
      ex (d ++ [nmSeg]) = false ∨ hasSub pkg latestStr = true) := by
  have h1 : needsInstall ex d pkg = (!(ex (d ++ [nmSeg])) || hasSub pkg latestStr) := by
    unfold needsInstall
    cases hx : ex (d ++ [nmSeg]) <;> cases hs : hasSub pkg latestStr <;> simp [hx, hs]
  refine ⟨h1, ?_⟩
  rw [h1]
  cases hx : ex (d ++ [nmSeg]) <;> cases hs : hasSub pkg latestStr <;> simp

/-! ## Claim C6: exit-status propagation -/

/-- Claim C6: for both the passthrough and the run-binary path, the
dispatcher's exit status is the child's exit status verbatim, or 0
when the child reports none; a spawn-level failure is reported to the
error stream with the underlying system message and yields status 1. -/
theorem c6_exit_propagation (bp : FsPath) (as : List Str) (c : Nat) (m : Str) :
    runBinaryModel bp as (.closed (some c)) = [.spawnBin bp as, .exitCode c] ∧
    runBinaryModel bp as (.closed none) = [.spawnBin bp as, .exitCode 0] ∧
    runBinaryModel bp as (.errored m) =
      [.spawnBin bp as, .stderrE (binSpawnErrHead ++ m), .exitCode 1] ∧
    passToNpxModel as (.closed (some c)) = [.spawnNpx as, .exitCode c] ∧
    passToNpxModel as (.closed none) = [.spawnNpx as, .exitCode 0] ∧
    passToNpxModel as (.errored m) =
      [.spawnNpx as, .stderrE (npxSpawnErrHead ++ m), .exitCode 1] :=
  ⟨rfl, rfl, rfl, rfl, rfl, rfl⟩

/-! ## Claim C5: install failure is silent (code bug) -/

/-- Claim C5 (code bug): on a failing `npm install` the process does
terminate with status 1 and the cache entry is left as-is, but the
catch block writes nothing: the complete trace below shows no
error-stream write between the installer invocation and `exit 1` —
the only stderr line is the unconditional pre-install progress
message. This contradicts the claimed failure diagnostic (and the
repository's own error-handling guidelines). -/
theorem c5_silent_install_failure :
    mainModel envC [acmeTok] =
      [.checkExists (acmeDir ++ [nmSeg]),
       .stderrE (installingMsg acmeTok),
       .mkdirp acmeDir,
       .writeFile (acmeDir ++ [pkgJsonSeg]),
       .execInstall acmeTok [] acmeDir,
       .exitCode 1] := by
  decide

/-! ## Claim C1: counterexample (self-flags beat the passthrough rule) -/

/-- Claim C1 is false as stated: the invocation
`["--ghpx-clear-cache"]` contains no non-flag token, yet the
dispatcher does not forward it to npx and it removes the cache root
(a cache write). -/
theorem c1_counterexample :
    findPackageArg (extractNpmFlags [clearFlag]).2 = none ∧
    mainModel envB [clearFlag] =
      [.checkExists (getCacheDir huHome), .rmTree (getCacheDir huHome),
       .stdoutE (clearedMsg (getCacheDir huHome)), .exitCode 0] ∧
    Eff.spawnNpx [clearFlag] ∉ mainModel envB [clearFlag] ∧
    Eff.rmTree (getCacheDir huHome) ∈ mainModel envB [clearFlag] := by
  decide

/-! ## Claim C3: counterexample (reconstruction misses the leading `@`) -/

/-- Claim C3 is false as stated: on the valid scoped token `@a/b@1`
the parser yields `scope = a`, `baseName = b`, `versionQualifier =
@1`, but `scope ++ "/" ++ baseName ++ versionQualifier` is `a/b@1`,
not the original token `@a/b@1`. -/
theorem c3_counterexample :
    matchScoped "@a/b@1".toList = some ("a".toList, "b".toList, some "@1".toList) ∧
    parsePackage "@a/b@1".toList =
      some { scope := "a".toList, pkgNameWithVersion := "b@1".toList,
             binName := "b".toList, fullPackage := "@a/b@1".toList } ∧
    "a".toList ++ "/".toList ++ "b".toList ++ "@1".toList ≠ "@a/b@1".toList := by
  decide

/-! ## Claim C9: counterexample (path traversal out of the cache root) -/

/-- Claim C9 is false as stated: the token `@../x` is accepted by the
specifier parser, yet the computed install directory normalizes to a
path outside the cache root (`~/x` rather than below `~/.ghpx-cache`). -/
theorem c9_counterexample :
    parsePackage "@../x".toList =
      some { scope := "..".toList, pkgNameWithVersion := "x".toList,
             binName := "x".toList, fullPackage := "@../x".toList } ∧
    ¬ (getCacheDir huHome <+: getInstallDir huHome "..".toList "x".toList) := by
  decide

/-! ## Claim C3: amended theorem (scoped-token round trip) -/

theorem takeWhile_middle (p : Char → Bool) (c : Char) (t : Str) :
    ∀ s : Str, (∀ x ∈ s, p x = true) → p c = false →
      ((s ++ c :: t).takeWhile p = s ∧ (s ++ c :: t).dropWhile p = c :: t) := by
  intro s
  induction s with
  | nil => intro _ hc; simp [List.takeWhile, List.dropWhile, hc]
  | cons a s' ih =>
    intro hs hc
    have ha : p a = true := hs a (by simp)
    have ih2 := ih (fun x hx => hs x (by simp [hx])) hc
    simp [List.takeWhile, List.dropWhile, ha, ih2.1, ih2.2]

/-- Claim C3, amended: for every scoped token `@s/n@v` (with `s`
non-empty without `/`, `n` non-empty without `@` or `/`, and `v`
non-empty consisting of characters the host regex dot accepts), the
parser yields `scope = s`, `baseName = n`, `versionQualifier = @v`,
and `"@" ++ scope ++ "/" ++ baseName ++ versionQualifier` — with the
leading `@` the original claim omitted — reconstructs the token. -/
theorem c3_scoped_parse (s n v : Str)
    (hs : s ≠ []) (hsS : '/' ∉ s)
    (hn : n ≠ []) (hnA : '@' ∉ n) (hnS : '/' ∉ n)
    (hv : v ≠ []) (hvD : v.all isDotChar = true) :
    matchScoped ('@' :: (s ++ '/' :: (n ++ '@' :: v))) = some (s, n, some ('@' :: v)) ∧
    parsePackage ('@' :: (s ++ '/' :: (n ++ '@' :: v))) =
      some { scope := s, pkgNameWithVersion := n ++ '@' :: v, binName := n,
             fullPackage := '@' :: (s ++ '/' :: (n ++ '@' :: v)) } ∧
    ('@' :: s) ++ ('/' :: n) ++ ('@' :: v) = '@' :: (s ++ '/' :: (n ++ '@' :: v)) := by
  have hps : ∀ x ∈ s, (fun c => decide (c ≠ '/')) x = true := by
    intro x hx
    simp only [decide_eq_true_eq]
    exact fun h => hsS (h ▸ hx)
  have hpn : ∀ x ∈ n, (fun c => decide (c ≠ '@')) x = true := by
    intro x hx
    simp only [decide_eq_true_eq]
    exact fun h => hnA (h ▸ hx)
  have h1 := takeWhile_middle (fun c => decide (c ≠ '/')) '/' (n ++ '@' :: v) s hps (by simp)
  have h2 := takeWhile_middle (fun c => decide (c ≠ '@')) '@' v n hpn (by simp)
  have hm : matchScoped ('@' :: (s ++ '/' :: (n ++ '@' :: v))) = some (s, n, some ('@' :: v)) := by
    simp only [matchScoped, h1.1, h1.2, h2.1, h2.2]
    simp [hs, hn, hv, hvD]
  refine ⟨hm, ?_, by simp⟩
  unfold parsePackage
  rw [hm]
  simp

/-- Witness for `c3_scoped_parse` at `s = a`, `n = b`, `v = 1.0`. -/
theorem c3_scoped_parse_witness :
    matchScoped ('@' :: ("a".toList ++ '/' :: ("b".toList ++ '@' :: "1.0".toList))) =
      some ("a".toList, "b".toList, some ('@' :: "1.0".toList)) ∧
    parsePackage ('@' :: ("a".toList ++ '/' :: ("b".toList ++ '@' :: "1.0".toList))) =
      some { scope := "a".toList, pkgNameWithVersion := "b".toList ++ '@' :: "1.0".toList,
             binName := "b".toList,
             fullPackage := '@' :: ("a".toList ++ '/' :: ("b".toList ++ '@' :: "1.0".toList)) } ∧
    ('@' :: "a".toList) ++ ('/' :: "b".toList) ++ ('@' :: "1.0".toList) =
      '@' :: ("a".toList ++ '/' :: ("b".toList ++ '@' :: "1.0".toList)) :=
  c3_scoped_parse "a".toList "b".toList "1.0".toList (by decide) (by decide) (by decide)
    (by decide) (by decide) (by decide) (by decide)

/-! ## Claim C9: amended theorem (cache containment) -/

theorem foldl_normStep_clean :
    ∀ (l : List Str) (acc : List Str), (∀ s ∈ l, cleanSegB s = true) →
      l.foldl normStep acc = acc ++ l := by
  intro l
  induction l with
  | nil => intro acc _; simp
  | cons a l' ih =>
    intro acc h
    have ha : cleanSegB a = true := h a (by simp)
    have ha1 : ¬(a = [] ∨ a = ['.']) := by
      simp only [cleanSegB, Bool.and_eq_true, bne_iff_ne, ne_eq, decide_eq_true_eq] at ha
      tauto
    have ha2 : a ≠ ['.', '.'] := by
      simp only [cleanSegB, Bool.and_eq_true, bne_iff_ne, ne_eq, decide_eq_true_eq] at ha
      tauto
    simp only [List.foldl_cons, normStep, if_neg ha1, if_neg ha2]
    rw [ih (acc ++ [a]) (fun s hs => h s (by simp [hs]))]
    simp

theorem foldl_normStep_extends :
    ∀ (l : List Str) (acc : List Str), (∀ s ∈ l, s ≠ ['.', '.']) →
      acc <+: l.foldl normStep acc := by
  intro l
  induction l with
  | nil => intro acc _; simp
  | cons a l' ih =>
    intro acc h
    have step : acc <+: normStep acc a := by
      unfold normStep
      split
      · exact List.prefix_rfl
      · rw [if_neg (h a (by simp))]
        exact ⟨[a], rfl⟩
    exact step.trans (ih (normStep acc a) (fun s hs => h s (by simp [hs])))

/-- Claim C9, amended: for every token accepted by the specifier
parser whose scope and whose version-stripped base name contain no
`..` path segment, the directory computed by `getInstallDir` lies
under the cache root (the cache root is a segment-prefix of the
normalized result). The original unconditional claim is refuted by
`c9_counterexample`: a `..` scope escapes the cache root. -/
theorem c9_cache_containment (home : FsPath) (tok : Str) (p : Parsed)
    (hHome : ∀ s ∈ home, cleanSegB s = true)
    (hp : parsePackage tok = some p)
    (hScope : ['.', '.'] ∉ splitSegs p.scope)
    (hBase : ['.', '.'] ∉ splitSegs (stripVersion p.pkgNameWithVersion)) :
    getCacheDir home <+: getInstallDir home p.scope p.pkgNameWithVersion := by
  have hRoot : ∀ s ∈ home ++ [ghpxCacheSeg], cleanSegB s = true := by
    intro s hs
    rcases List.mem_append.mp hs with h | h
    · exact hHome s h
    · rw [List.mem_singleton.mp h]; decide
  have hgc : getCacheDir home = home ++ [ghpxCacheSeg] := by
    unfold getCacheDir normSegs
    rw [foldl_normStep_clean _ [] hRoot]
    simp
  unfold getInstallDir normSegs
  rw [List.foldl_append, List.foldl_append]
  rw [hgc, foldl_normStep_clean _ [] hRoot]
  rw [List.nil_append]
  have s1 : (home ++ [ghpxCacheSeg]) <+:
      (splitSegs p.scope).foldl normStep (home ++ [ghpxCacheSeg]) :=
    foldl_normStep_extends _ _ (fun s hs heq => hScope (heq ▸ hs))
  have s2 := foldl_normStep_extends (splitSegs (stripVersion p.pkgNameWithVersion))
    ((splitSegs p.scope).foldl normStep (home ++ [ghpxCacheSeg]))
    (fun s hs heq => hBase (heq ▸ hs))
  exact s1.trans s2

/-- Witness for `c9_cache_containment` on `@acme/tool@1.2.3` under the
home directory `/h/u`. -/
theorem c9_cache_containment_witness :
    getCacheDir huHome <+: getInstallDir huHome acmeParsed.scope acmeParsed.pkgNameWithVersion :=
  c9_cache_containment huHome "@acme/tool@1.2.3".toList acmeParsed
    (by decide) (by decide) (by decide) (by decide)

/-! ## Claims C7 and C8: the argument classifier -/

theorem extract_eq_fwv_nil (a : Str) (h : a ∈ flagsWithValues) :
    extractNpmFlags [a] = ([a], []) := by
  conv_lhs => unfold extractNpmFlags
  rw [if_pos h]

theorem extract_eq_fwv_cons (a v : Str) (rest2 : List Str) (h : a ∈ flagsWithValues) :
    extractNpmFlags (a :: v :: rest2) =
      (a :: v :: (extractNpmFlags rest2).1, (extractNpmFlags rest2).2) := by
  conv_lhs => unfold extractNpmFlags
  rw [if_pos h]

theorem extract_eq_standalone (a : Str) (rest : List Str) (h1 : a ∉ flagsWithValues)
    (h2 : a ∈ standaloneFlags ∨ List.isPrefixOf loglevelEqStr a = true) :
    extractNpmFlags (a :: rest) =
      (a :: (extractNpmFlags rest).1, (extractNpmFlags rest).2) := by
  conv_lhs => unfold extractNpmFlags
  rw [if_neg h1, if_pos h2]

theorem extract_eq_other (a : Str) (rest : List Str) (h1 : a ∉ flagsWithValues)
    (h2 : ¬(a ∈ standaloneFlags ∨ List.isPrefixOf loglevelEqStr a = true)) :
    extractNpmFlags (a :: rest) =
      ((extractNpmFlags rest).1, a :: (extractNpmFlags rest).2) := by
  conv_lhs => unfold extractNpmFlags
  rw [if_neg h1, if_neg h2]

theorem extract_partition (args : List Str) :
    List.Sublist (extractNpmFlags args).1 args ∧
    List.Sublist (extractNpmFlags args).2 args ∧
    ∀ t, (extractNpmFlags args).1.count t + (extractNpmFlags args).2.count t = args.count t := by
  induction args using extractNpmFlags.induct with
  | case1 => simp [extractNpmFlags]
  | case2 v hv =>
    refine ⟨?_, ?_, ?_⟩ <;> simp [extract_eq_fwv_nil v hv]
  | case3 v hv v1 rest2 ih =>
    obtain ⟨ih1, ih2, ih3⟩ := ih
    rw [extract_eq_fwv_cons v v1 rest2 hv]
    refine ⟨List.Sublist.cons₂ _ (List.Sublist.cons₂ _ ih1),
      List.Sublist.cons _ (List.Sublist.cons _ ih2), ?_⟩
    intro t
    simp only [List.count_cons]
    have := ih3 t
    omega
  | case4 v rest2 hv hsl ih =>
    obtain ⟨ih1, ih2, ih3⟩ := ih
    rw [extract_eq_standalone v rest2 hv hsl]
    refine ⟨List.Sublist.cons₂ _ ih1, List.Sublist.cons _ ih2, ?_⟩
    intro t
    simp only [List.count_cons]
    have := ih3 t
    omega
  | case5 v rest2 hv hsl ih =>
    obtain ⟨ih1, ih2, ih3⟩ := ih
    rw [extract_eq_other v rest2 hv hsl]
    refine ⟨List.Sublist.cons _ ih1, List.Sublist.cons₂ _ ih2, ?_⟩
    intro t
    simp only [List.count_cons]
    have := ih3 t
    omega

/-- Claim C7: the classifier splits every invocation into two
order-preserving subsequences (`npmFlags` and `remainingArgs`), and
every occurrence of every token lands in exactly one of the two (the
occurrence counts of the parts sum to the count in the input). -/
theorem c7_classifier_partition (args : List Str) :
    List.Sublist (extractNpmFlags args).1 args ∧
    List.Sublist (extractNpmFlags args).2 args ∧
    ∀ t, (extractNpmFlags args).1.count t + (extractNpmFlags args).2.count t = args.count t :=
  extract_partition args

theorem extract_trailing (f : Str) (hf : f ∈ flagsWithValues) :
    ∀ front : List Str,
      extractNpmFlags (front ++ [f]) =
        ((extractNpmFlags front).1 ++ [f], (extractNpmFlags front).2) := by
  intro front
  induction front using extractNpmFlags.induct with
  | case1 =>
    rw [List.nil_append, extract_eq_fwv_nil f hf]
    simp [extractNpmFlags]
  | case2 v hv =>
    rw [List.cons_append, List.nil_append, extract_eq_fwv_cons v f [] hv,
      extract_eq_fwv_nil v hv]
    simp [extractNpmFlags]
  | case3 v hv v1 rest2 ih =>
    rw [List.cons_append, List.cons_append, extract_eq_fwv_cons v v1 (rest2 ++ [f]) hv,
      extract_eq_fwv_cons v v1 rest2 hv, ih]
    simp
  | case4 v rest2 hv hsl ih =>
    rw [List.cons_append, extract_eq_standalone v (rest2 ++ [f]) hv hsl,
      extract_eq_standalone v rest2 hv hsl, ih]
    simp
  | case5 v rest2 hv hsl ih =>
    rw [List.cons_append, extract_eq_other v (rest2 ++ [f]) hv hsl,
      extract_eq_other v rest2 hv hsl, ih]

/-- Claim C8: a value-taking flag in last position is recorded alone
at the end of `npmFlags` with no value appended; every other token is
classified exactly as it would be without the trailing flag, and the
classifier is a total function (no out-of-bounds access). -/
theorem c8_trailing_value_flag (front : List Str) (f : Str) (hf : f ∈ flagsWithValues) :
    extractNpmFlags (front ++ [f]) =
      ((extractNpmFlags front).1 ++ [f], (extractNpmFlags front).2) :=
  extract_trailing f hf front

/-- Witness for `c8_trailing_value_flag` with `front = [foo]` and the
value-taking flag `-p`. -/
theorem c8_trailing_value_flag_witness :
    extractNpmFlags (["foo".toList] ++ ["-p".toList]) =
      ((extractNpmFlags ["foo".toList]).1 ++ ["-p".toList],
        (extractNpmFlags ["foo".toList]).2) :=
  c8_trailing_value_flag ["foo".toList] "-p".toList (by decide)

/-! ## Claim C1: amended theorem (passthrough forwarding) -/

/-- Claim C1, amended: for every invocation whose first token is not
one of the two self-flags (`--ghpx-version`, `--ghpx-clear-cache`),
if the remaining arguments contain no non-flag token, or their first
non-flag token does not match the scoped-specifier grammar, then the
dispatcher spawns npx on the complete original argument vector and
performs no cache effect at all. The unconditional original claim is
refuted by `c1_counterexample` (a self-flag invocation). -/
theorem c1_forwarding (env : Env) (args : List Str)
    (h1 : args.head? ≠ some verFlag) (h2 : args.head? ≠ some clearFlag)
    (h3 : candidateSpec args = none) :
    mainModel env args = Eff.spawnNpx args :: closeOrError npxSpawnErrHead env.npxResult ∧
    ∀ e ∈ mainModel env args, e.isCacheOp = false := by
  have hmain : mainModel env args = passToNpxModel args env.npxResult := by
    unfold mainModel
    by_cases hargs : args = []
    · rw [if_pos hargs]
    · rw [if_neg hargs, if_neg h1, if_neg h2]
      unfold candidateSpec at h3
      cases hfp : findPackageArg (extractNpmFlags args).2 with
      | none => simp [hfp]
      | some iv =>
        cases hpp : parsePackage iv.2 with
        | none => simp [hfp, hpp]
        | some p =>
          rw [hfp] at h3
          simp [hpp] at h3
  refine ⟨by rw [hmain]; rfl, ?_⟩
  rw [hmain]
  unfold passToNpxModel closeOrError
  cases env.npxResult with
  | closed c =>
    intro e he
    simp only [List.mem_cons, List.not_mem_nil, or_false] at he
    rcases he with h | h <;> simp [h, Eff.isCacheOp]
  | errored m =>
    intro e he
    simp only [List.mem_cons, List.not_mem_nil, or_false] at he
    rcases he with h | h | h <;> simp [h, Eff.isCacheOp]

/-- Witness for `c1_forwarding` on the unscoped invocation
`[cowsay, hello]`. -/
theorem c1_forwarding_witness :
    mainModel envA ["cowsay".toList, "hello".toList] =
      Eff.spawnNpx ["cowsay".toList, "hello".toList] ::
        closeOrError npxSpawnErrHead envA.npxResult :=
  (c1_forwarding envA ["cowsay".toList, "hello".toList]
    (by decide) (by decide) (by decide)).1

/-! ## The scoped dispatch path (shared lemmas for C4 and C10) -/

theorem mainModel_scoped_run (env : Env) (args : List Str) (i : Nat) (v : Str)
    (p : Parsed) (bp : FsPath)
    (h1 : args.head? ≠ some verFlag) (h2 : args.head? ≠ some clearFlag)
    (h3 : findPackageArg (extractNpmFlags args).2 = some (i, v))
    (h4 : parsePackage v = some p)
    (h5 : needsInstall env.fsExists (getInstallDir env.home p.scope p.pkgNameWithVersion)
            p.fullPackage = true → env.installOk = true)
    (h6 : (findBinaryModel env.binExists env.isWin32
            (getInstallDir env.home p.scope p.pkgNameWithVersion) p.binName).2 = some bp) :
    mainModel env args =
      Eff.checkExists (getInstallDir env.home p.scope p.pkgNameWithVersion ++ [nmSeg]) ::
      ((if needsInstall env.fsExists (getInstallDir env.home p.scope p.pkgNameWithVersion)
            p.fullPackage then
          Eff.stderrE (installingMsg p.fullPackage) ::
            installPackageModel env.installOk
              (getInstallDir env.home p.scope p.pkgNameWithVersion)
              p.fullPackage (extractNpmFlags args).1
        else []) ++
        (findBinaryModel env.binExists env.isWin32
          (getInstallDir env.home p.scope p.pkgNameWithVersion) p.binName).1 ++
        runBinaryModel bp ((extractNpmFlags args).2.drop (i + 1)) env.binResult) := by
  have hargs : args ≠ [] := by
    intro h
    rw [h] at h3
    simp [extractNpmFlags, findPackageArg] at h3
  unfold mainModel
  rw [if_neg hargs, if_neg h1, if_neg h2]
  simp only [h3, h4]
  by_cases hneed : needsInstall env.fsExists
      (getInstallDir env.home p.scope p.pkgNameWithVersion) p.fullPackage = true
  · have hok := h5 hneed
    simp only [hneed, hok, h6, Bool.not_true, Bool.and_false, if_true, if_false]
    simp
  · simp only [Bool.not_eq_true] at hneed
    simp only [hneed, h6, Bool.false_and, if_false]
    simp

theorem installPackageModel_spawnBin_not_mem (ok : Bool) (d : FsPath) (pkg : Str)
    (nf : List Str) (b : FsPath) (a2 : List Str) :
    Eff.spawnBin b a2 ∉ installPackageModel ok d pkg nf := by
  unfold installPackageModel
  cases ok <;> simp

theorem findBinaryModel_mem_checks (ex : FsPath → Bool) (w : Bool) (d : FsPath) (bn : Str) :
    ∀ e ∈ (findBinaryModel ex w d bn).1, ∃ q, e = Eff.checkExists q := by
  intro e he
  simp only [findBinaryModel] at he
  by_cases hw : w = true
  · rw [if_pos hw] at he
    by_cases hc : ex (pathJoin (d ++ [nmSeg, dotBinSeg]) (bn ++ cmdExt)) = true
    · rw [if_pos hc] at he
      simp at he
      exact ⟨_, he⟩
    · rw [if_neg hc] at he
      by_cases hb : ex (pathJoin (d ++ [nmSeg, dotBinSeg]) bn) = true
      · rw [if_pos hb] at he
        simp at he
        rcases he with he | he <;> exact ⟨_, he⟩
      · rw [if_neg hb] at he
        simp at he
        rcases he with he | he <;> exact ⟨_, he⟩
  · rw [if_neg hw] at he
    by_cases hb : ex (pathJoin (d ++ [nmSeg, dotBinSeg]) bn) = true
    · rw [if_pos hb] at he
      simp at he
      exact ⟨_, he⟩
    · rw [if_neg hb] at he
      simp at he
      exact ⟨_, he⟩

theorem closeOrError_mem (hd : Str) (r : SpawnResult) :
    ∀ e ∈ closeOrError hd r, (∃ c, e = Eff.exitCode c) ∨ (∃ m, e = Eff.stderrE m) := by
  intro e he
  cases r with
  | closed c =>
    simp [closeOrError] at he
    exact Or.inl ⟨_, he⟩
  | errored m =>
    simp [closeOrError] at he
    rcases he with he | he
    · exact Or.inr ⟨_, he⟩
    · exact Or.inl ⟨_, he⟩

theorem mainModel_spawnBin_mem (env : Env) (args : List Str) (i : Nat) (v : Str)
    (p : Parsed) (bp : FsPath)
    (h1 : args.head? ≠ some verFlag) (h2 : args.head? ≠ some clearFlag)
    (h3 : findPackageArg (extractNpmFlags args).2 = some (i, v))
    (h4 : parsePackage v = some p)
    (h5 : needsInstall env.fsExists (getInstallDir env.home p.scope p.pkgNameWithVersion)
            p.fullPackage = true → env.installOk = true)
    (h6 : (findBinaryModel env.binExists env.isWin32
            (getInstallDir env.home p.scope p.pkgNameWithVersion) p.binName).2 = some bp) :
    Eff.spawnBin bp ((extractNpmFlags args).2.drop (i + 1)) ∈ mainModel env args := by
  rw [mainModel_scoped_run env args i v p bp h1 h2 h3 h4 h5 h6]
  simp [runBinaryModel]

theorem mainModel_spawnBin_unique (env : Env) (args : List Str) (i : Nat) (v : Str)
    (p : Parsed) (bp : FsPath)
    (h1 : args.head? ≠ some verFlag) (h2 : args.head? ≠ some clearFlag)
    (h3 : findPackageArg (extractNpmFlags args).2 = some (i, v))
    (h4 : parsePackage v = some p)
    (h5 : needsInstall env.fsExists (getInstallDir env.home p.scope p.pkgNameWithVersion)
            p.fullPackage = true → env.installOk = true)
    (h6 : (findBinaryModel env.binExists env.isWin32
            (getInstallDir env.home p.scope p.pkgNameWithVersion) p.binName).2 = some bp) :
    ∀ b a2, Eff.spawnBin b a2 ∈ mainModel env args →
      b = bp ∧ a2 = (extractNpmFlags args).2.drop (i + 1) := by
  rw [mainModel_scoped_run env args i v p bp h1 h2 h3 h4 h5 h6]
  intro b a2 hmem
  simp only [List.mem_cons, List.mem_append, or_assoc] at hmem
  rcases hmem with h | h | h | h
  · simp at h
  · by_cases hneed : needsInstall env.fsExists
        (getInstallDir env.home p.scope p.pkgNameWithVersion) p.fullPackage = true
    · rw [if_pos hneed] at h
      rcases List.mem_cons.mp h with h | h
      · simp at h
      · exact absurd h (installPackageModel_spawnBin_not_mem _ _ _ _ _ _)
    · rw [if_neg hneed] at h
      simp at h
  · obtain ⟨q, hq⟩ := findBinaryModel_mem_checks _ _ _ _ _ h
    simp at hq
  · simp only [runBinaryModel, List.mem_cons] at h
    rcases h with h | h
    · simp at h
      exact ⟨h.1, h.2⟩
    · rcases closeOrError_mem _ _ _ h with ⟨c, hc⟩ | ⟨m, hm⟩
      · simp at hc
      · simp at hm

theorem findPackageArg_spec (r : List Str) :
    ∀ i v, findPackageArg r = some (i, v) →
      (∀ t ∈ r.take i, t.head? = some '-') ∧ r.get? i = some v ∧ v.head? ≠ some '-' := by
  induction r with
  | nil => intro i v h; simp [findPackageArg] at h
  | cons a rest ih =>
    intro i v h
    unfold findPackageArg at h
    by_cases ha : a.head? = some '-'
    · rw [if_pos ha] at h
      cases hfp : findPackageArg rest with
      | none => rw [hfp] at h; simp at h
      | some iv =>
        rw [hfp] at h
        simp only [Option.map_some', Option.some.injEq, Prod.mk.injEq] at h
        obtain ⟨hi, hv⟩ := h
        obtain ⟨ih1, ih2, ih3⟩ := ih iv.1 iv.2 (by rw [hfp])
        subst hi
        subst hv
        refine ⟨?_, by simpa using ih2, ih3⟩
        intro t ht
        rw [List.take_succ_cons] at ht
        rcases List.mem_cons.mp ht with h' | h'
        · rw [h']; exact ha
        · exact ih1 t h'
    · rw [if_neg ha] at h
      have hi : (0 : Nat) = i := congrArg Prod.fst (Option.some.inj h)
      have hv : a = v := congrArg Prod.snd (Option.some.inj h)
      subst hi
      subst hv
      exact ⟨by simp, by simp, ha⟩

/-! ## Claim C4: arguments forwarded to the resolved binary -/

/-- Claim C4: on the scoped path, the binary is spawned with exactly
the tokens of `remainingArgs` that followed the specifier's index
(order preserved), and no spawn of the binary ever receives anything
else — in particular the specifier occurrence itself is never
forwarded. -/
theorem c4_binary_args (env : Env) (args : List Str) (i : Nat) (v : Str)
    (p : Parsed) (bp : FsPath)
    (h1 : args.head? ≠ some verFlag) (h2 : args.head? ≠ some clearFlag)
    (h3 : findPackageArg (extractNpmFlags args).2 = some (i, v))
    (h4 : parsePackage v = some p)
    (h5 : needsInstall env.fsExists (getInstallDir env.home p.scope p.pkgNameWithVersion)
            p.fullPackage = true → env.installOk = true)
    (h6 : (findBinaryModel env.binExists env.isWin32
            (getInstallDir env.home p.scope p.pkgNameWithVersion) p.binName).2 = some bp) :
    Eff.spawnBin bp ((extractNpmFlags args).2.drop (i + 1)) ∈ mainModel env args ∧
    ∀ b a2, Eff.spawnBin b a2 ∈ mainModel env args →
      b = bp ∧ a2 = (extractNpmFlags args).2.drop (i + 1) :=
  ⟨mainModel_spawnBin_mem env args i v p bp h1 h2 h3 h4 h5 h6,
   mainModel_spawnBin_unique env args i v p bp h1 h2 h3 h4 h5 h6⟩

/-- Witness for `c4_binary_args` on `[@acme/tool, --flag, x]` with an
empty cache and a succeeding installer: the binary receives exactly
`[--flag, x]`. -/
theorem c4_binary_args_witness :
    Eff.spawnBin (pathJoin (acmeDir ++ [nmSeg, dotBinSeg]) "tool".toList)
        ((extractNpmFlags [acmeTok, "--flag".toList, "x".toList]).2.drop (0 + 1)) ∈
      mainModel envA [acmeTok, "--flag".toList, "x".toList] :=
  (c4_binary_args envA [acmeTok, "--flag".toList, "x".toList] 0 acmeTok acmeToolParsed
    (pathJoin (acmeDir ++ [nmSeg, dotBinSeg]) "tool".toList)
    (by decide) (by decide) (by decide) (by decide) (by decide) (by decide)).1

/-! ## Claim C10: pre-specifier flag-like tokens are discarded -/

/-- Claim C10: every token of `remainingArgs` before the specifier's
index starts with `-`; the install command's arguments are exactly the
raw specifier and a subsequence of `npmFlags` (which is
occurrence-disjoint from `remainingArgs` by the partition property),
and the binary receives exactly the tokens after the specifier's
index. Hence no occurrence of a pre-specifier flag-like token reaches
either external command. -/
theorem c10_pre_specifier_discarded (env : Env) (args : List Str) (i : Nat) (v : Str)
    (p : Parsed) (bp : FsPath)
    (h1 : args.head? ≠ some verFlag) (h2 : args.head? ≠ some clearFlag)
    (h3 : findPackageArg (extractNpmFlags args).2 = some (i, v))
    (h4 : parsePackage v = some p)
    (h5 : needsInstall env.fsExists (getInstallDir env.home p.scope p.pkgNameWithVersion)
            p.fullPackage = true → env.installOk = true)
    (h6 : (findBinaryModel env.binExists env.isWin32
            (getInstallDir env.home p.scope p.pkgNameWithVersion) p.binName).2 = some bp)
    (h7 : needsInstall env.fsExists (getInstallDir env.home p.scope p.pkgNameWithVersion)
            p.fullPackage = true) :
    (∀ t ∈ (extractNpmFlags args).2.take i, t.head? = some '-') ∧
    (∀ pk fl cw, Eff.execInstall pk fl cw ∈ mainModel env args →
        pk = p.fullPackage ∧ fl = (extractNpmFlags args).1.filter installFlagPred) ∧
    List.Sublist ((extractNpmFlags args).1.filter installFlagPred) (extractNpmFlags args).1 ∧
    (∀ b a2, Eff.spawnBin b a2 ∈ mainModel env args →
        a2 = (extractNpmFlags args).2.drop (i + 1)) ∧
    (∀ t, (extractNpmFlags args).1.count t + (extractNpmFlags args).2.count t = args.count t) := by
  have hok := h5 h7
  refine ⟨(findPackageArg_spec _ i v h3).1, ?_, List.filter_sublist _,
    fun b a2 hm => (mainModel_spawnBin_unique env args i v p bp h1 h2 h3 h4 h5 h6 b a2 hm).2,
    (extract_partition args).2.2⟩
  intro pk fl cw hmem
  rw [mainModel_scoped_run env args i v p bp h1 h2 h3 h4 h5 h6] at hmem
  rw [if_pos h7, hok] at hmem
  simp only [installPackageModel, if_true, List.append_nil, List.mem_cons, List.mem_append,
    List.not_mem_nil, or_false, false_or, or_assoc] at hmem
  rcases hmem with h | h | h | h | h | h | h
  · simp at h
  · simp at h
  · simp at h
  · simp at h
  · simp only [Eff.execInstall.injEq] at h
    exact ⟨h.1, h.2.1⟩
  · obtain ⟨q, hq⟩ := findBinaryModel_mem_checks _ _ _ _ _ h
    simp at hq
  · simp only [runBinaryModel, List.mem_cons] at h
    rcases h with h | h
    · simp at h
    · rcases closeOrError_mem _ _ _ h with ⟨c, hc⟩ | ⟨m, hm⟩
      · simp at hc
      · simp at hm

/-- Witness for `c10_pre_specifier_discarded` on
`[--unknown, @acme/tool, x]` (specifier at index 1 of the remaining
arguments, preceded by the unrecognized flag-like token `--unknown`). -/
theorem c10_pre_specifier_discarded_witness :
    List.Sublist
      ((extractNpmFlags ["--unknown".toList, acmeTok, "x".toList]).1.filter installFlagPred)
      (extractNpmFlags ["--unknown".toList, acmeTok, "x".toList]).1 :=
  (c10_pre_specifier_discarded envA ["--unknown".toList, acmeTok, "x".toList] 1 acmeTok
    acmeToolParsed (pathJoin (acmeDir ++ [nmSeg, dotBinSeg]) "tool".toList)
    (by decide) (by decide) (by decide) (by decide) (by decide) (by decide) (by decide)).2.2.1
